import Mathlib

/-!
Shallow embedding of the core of `src/django_template_engine.js` (a Django-style
template engine in JavaScript) together with theorems settling the frozen
claims about it.  Each definition is translated from the JavaScript source;
doc comments name the source function being embedded.
-/

namespace DTE

/-- The universe of JavaScript runtime values manipulated by the engine.
`vSafeStr` models a `SafeString` instance (a string carrying the safe mark and
the `__html__` method); `vObj` models a plain object as an association list of
own enumerable properties; `vList` models an `Array`. -/
inductive JSValue where
  | vNull
  | vUndefined
  | vBool (b : Bool)
  | vNum (n : Int)
  | vStr (s : String)
  | vSafeStr (s : String)
  | vList (xs : List JSValue)
  | vObj (kvs : List (String × JSValue))

open JSValue

/-- JavaScript string coercion `value + ''` for the values in our universe
(`String(null) = "null"`, `String([1,2]) = "1,2"`, a `SafeString` stringifies
to its contents). -/
def jsToString : JSValue → String
  | vNull => "null"
  | vUndefined => "undefined"
  | vBool b => if b then "true" else "false"
  | vNum n => toString n
  | vStr s => s
  | vSafeStr s => s
  | vList xs => String.intercalate "," (xs.attach.map (fun x => jsToString x.1))
  | vObj _ => "[object Object]"
decreasing_by
  have := List.sizeOf_lt_of_mem x.2
  simp at this ⊢
  omega

/-- JavaScript truthiness: `false`, `0`, `''`, `null`, `undefined` are falsy;
objects and arrays (and nonempty strings, nonzero numbers) are truthy. -/
def jsTruthy : JSValue → Bool
  | vNull => false
  | vUndefined => false
  | vBool b => b
  | vNum n => n != 0
  | vStr s => s ≠ ""
  | vSafeStr s => s ≠ ""
  | vList _ => true
  | vObj _ => true

/-- JavaScript property access `value[key]` for the accesses the engine
performs.  A missing property yields `undefined`; property access on a
primitive (boolean, number, null-like) also yields `undefined` for the
property names the engine uses. -/
def jsGetProp (v : JSValue) (key : String) : JSValue :=
  match v with
  | vObj kvs => ((kvs.filter (fun kv => kv.1 = key)).head?.map Prod.snd).getD vUndefined
  | vList xs =>
      if key = "length" then vNum xs.length
      else match key.toNat? with
           | some i => (xs.get? i).getD vUndefined
           | none => vUndefined
  | _ => vUndefined

/-- One global-replace pass `str.replace(/c/g, r)` over a character class of a
single character, written on `List Char`. -/
def replList (c : Char) (r : List Char) : List Char → List Char
  | [] => []
  | ch :: rest => (if ch = c then r else [ch]) ++ replList c r rest

/-- The five sequential global replaces of `escapeHtml`, in source order:
`&`, `<`, `>`, `"`, `'`. -/
def escPasses (cs : List Char) : List Char :=
  replList '\'' "&#39;".data
    (replList '"' "&quot;".data
      (replList '>' "&gt;".data
        (replList '<' "&lt;".data
          (replList '&' "&amp;".data cs))))

/-- Model of `escapeHtml` from the source. -/
def escapeHtml (s : String) : String :=
  String.mk (escPasses s.data)

/-- Character-wise HTML entity mapping, i.e. the specification's words for
"the HTML-entity-escaped form (&, <, >, ", ' replaced by entities)". -/
def escapeChar (c : Char) : List Char :=
  if c = '&' then "&amp;".data
  else if c = '<' then "&lt;".data
  else if c = '>' then "&gt;".data
  else if c = '"' then "&quot;".data
  else if c = '\'' then "&#39;".data
  else [c]

/-- One-pass, character-wise HTML escaping: the escape function as the
specification describes it. -/
def escapeHtmlSpec (s : String) : String :=
  String.mk (s.data.flatMap escapeChar)

/-- Model of `conditionalEscape` from the source: `null`/`undefined` become the empty
string; a value with a callable `__html__` (our `SafeString`) is returned via
`value.__html__()`, i.e. unescaped; anything else is coerced to a string and
passed through `escapeHtml`. -/
def conditionalEscape : JSValue → String
  | vNull => ""
  | vUndefined => ""
  | vSafeStr s => s
  | v => escapeHtml (jsToString v)

/-- Model of `render_value_in_context` from the source (with `localize` the identity,
as in the source): escape when the context has autoescape on, otherwise plain
string coercion. -/
def render_value_in_context (value : JSValue) (autoescape : Bool) : String :=
  if autoescape then conditionalEscape value else jsToString value

/-- Model of `markSafe` from the source restricted to the values the engine feeds it:
a `SafeString` is returned unchanged, a plain string is wrapped, anything
else throws `"Invalid argument for 'markSafe'"`. -/
def markSafe : JSValue → Except String JSValue
  | vSafeStr s => .ok (vSafeStr s)
  | vStr s => .ok (vSafeStr s)
  | _ => .error "Invalid argument for 'markSafe'"

/-! ## Context and scoping (`BaseContext`, `Context`) -/

/-- One mapping frame of the context stack: an object's own properties,
modelled as an association list in which keys are unique (assignment
replaces). -/
abbrev Frame := List (String × JSValue)

/-- Model of `hasOwnProperty(dict, key)`. -/
def frameHas (f : Frame) (key : String) : Bool :=
  f.any (fun kv => kv.1 = key)

/-- Model of `dict[key]` when present. -/
def frameGet (f : Frame) (key : String) : Option JSValue :=
  ((f.filter (fun kv => kv.1 = key)).head?).map Prod.snd

/-- Model of `dict[key] = value`: replace an existing binding, else append. -/
def frameSet (f : Frame) (key : String) (value : JSValue) : Frame :=
  if frameHas f key then
    f.map (fun kv => if kv.1 = key then (key, value) else kv)
  else f ++ [(key, value)]

/-- Model of `delete dict[key]`. -/
def frameDelete (f : Frame) (key : String) : Frame :=
  f.filter (fun kv => kv.1 ≠ key)

/-- The process-wide builtins frame
`DJANGO_TEMPLATE_SETTINGS.CONTEXT_BUILTINS = {'True': true, 'False': false, 'None': null}`,
installed as frame 0 of every context. -/
def contextBuiltins : Frame :=
  [("True", JSValue.vBool true), ("False", JSValue.vBool false), ("None", JSValue.vNull)]

/-- Model of `BaseContext.prototype._resetDicts`: the stack starts as
`[CONTEXT_BUILTINS]`, with a copy of the constructor's dict pushed on top when
one was given. -/
def resetDicts (value : Option Frame) : List Frame :=
  match value with
  | some d => [contextBuiltins, d]
  | none => [contextBuiltins]

/-- Model of `objectGetPath(obj, path)`: repeated property access
`obj = obj[p[i]]`, stopping early (and returning the value reached) as soon
as the accumulated value is falsy. -/
def objectGetPath (obj : JSValue) (path : List String) : JSValue :=
  match path with
  | [] => obj
  | k :: rest =>
      let next := jsGetProp obj k
      if jsTruthy next then objectGetPath next rest else next

/-- Model of `BaseContext.prototype.get` with `deepKeySearch` (the `Context` default):
search the frames innermost-first for the head key; when found, follow the
remaining dotted path with `objectGetPath`; when no frame has the head key,
the caller's `otherwise` is returned — modelled as `none`. -/
def contextGet (dicts : List Frame) (pathKey : List String) : Option JSValue :=
  match pathKey with
  | [] => none
  | topKey :: rest =>
      match (dicts.reverse.filter (fun f => frameHas f topKey)).head? with
      | some f => some (objectGetPath ((frameGet f topKey).getD JSValue.vUndefined) rest)
      | none => none

/-- A render step that can mutate the dict stack and either return a value or
throw: the shape of the callback passed to `BaseContext.push(dict, f)`.  The
final stack is reported in both outcomes, since a JavaScript exception leaves
the mutated context behind. -/
def RenderStep (ε α : Type) : Type :=
  List Frame → Except ε α × List Frame

/-- Model of `BaseContext.prototype.push(dict, f)` (callback form): copy `dict` (or a
fresh empty object when falsy), push it, run `f`, then pop and return `f`'s
result.  The `this.dicts.pop()` line runs only when `f` returns normally —
there is no try/finally — so a throwing `f` leaves the pushed frame on the
stack. -/
def basePush {ε α : Type} (dicts : List Frame) (dict : Option Frame)
    (f : RenderStep ε α) : Except ε α × List Frame :=
  let dicts' := dicts ++ [dict.getD []]
  match f dicts' with
  | (Except.ok r, ds) => (Except.ok r, ds.dropLast)
  | (Except.error e, ds) => (Except.error e, ds)

/-- The error thrown by `BaseContext.prototype.pop` on a one-frame stack. -/
inductive ContextErr where
  | contextPopException
deriving DecidableEq, Repr

/-- The public mutating operations on a context's dict stack, for stating the
stack invariant: `push` (plain form, no callback), `pop`, `set`, `delete`. -/
inductive COp where
  | push (dict : Option Frame)
  | pop
  | set (key : String) (value : JSValue)
  | delete (key : String)

/-- Model of `BaseContext.prototype.set`: assign into the last (innermost) frame. -/
def ctxSet (dicts : List Frame) (key : String) (value : JSValue) : List Frame :=
  dicts.dropLast ++ ((dicts.getLast?).map (fun f => [frameSet f key value])).getD []

/-- Model of `BaseContext.prototype.delete`: delete from the last (innermost) frame. -/
def ctxDelete (dicts : List Frame) (key : String) : List Frame :=
  dicts.dropLast ++ ((dicts.getLast?).map (fun f => [frameDelete f key])).getD []

/-- One operation applied to the dict stack, returning the outcome and the
stack afterwards.  `push` appends one (copied) frame; `pop` throws
`ContextPopException` when only one frame remains, else removes the last
frame; `set`/`delete` mutate the last frame in place. -/
def applyOp (dicts : List Frame) : COp → Except ContextErr Unit × List Frame
  | COp.push d => (Except.ok (), dicts ++ [d.getD []])
  | COp.pop =>
      if dicts.length = 1 then (Except.error ContextErr.contextPopException, dicts)
      else (Except.ok (), dicts.dropLast)
  | COp.set k v => (Except.ok (), ctxSet dicts k v)
  | COp.delete k => (Except.ok (), ctxDelete dicts k)

/-- Run a sequence of stack operations, continuing past thrown
`ContextPopException`s (a caller may catch and keep using the context). -/
def runOps (dicts : List Frame) (ops : List COp) : List Frame :=
  ops.foldl (fun ds op => (applyOp ds op).2) dicts

/-! ## Filter expressions (`Variable`, `FilterExpression`) -/

/-- A render-time context as the nodes see it: the dict stack of the user
`Context`, the autoescape flag carried on it, and the owning engine's
`string_if_invalid` setting (reached in the source as
`context.template.engine.stringIfInvalid`). -/
structure Ctx where
  dicts : List Frame
  autoescape : Bool := true
  stringIfInvalid : String := ""

/-- The compiled base of a `FilterExpression`: either a `Variable` with a
dotted lookup path (`this.lookups`, with `this.variable` the raw dotted text)
or an already-resolved literal. -/
inductive VarObj where
  | lookups (path : List String) (varName : String)
  | literal (v : JSValue)

/-- Model of `Variable.prototype.resolve` routed through
`Variable.prototype._resolveLookup`, i.e. `context.get(this.lookups, SENTINEL)`
for a bona-fide variable.  `none` models the distinguished
`VARIABLE_DOES_NOT_EXISTS` sentinel (no frame has the head key); a literal is
already resolved. -/
def varObjResolve (v : VarObj) (dicts : List Frame) : Option JSValue :=
  match v with
  | VarObj.lookups path _ => contextGet dicts path
  | VarObj.literal x => some x

/-- A compiled `FilterExpression`: the base and the filter chain.  Each
compiled filter is modelled as the value transformation it denotes once its
argument has been resolved (argument resolution and the `is_safe` /
`needs_autoescape` metadata handling are folded into the function). -/
structure FilterExpr where
  varObj : VarObj
  filters : List (JSValue → JSValue)

/-- The `this.filters.forEach(...)` loop of `FilterExpression.prototype.resolve`:
thread the accumulated value through the chain, left to right. -/
def applyFilters (filters : List (JSValue → JSValue)) (obj : JSValue) : JSValue :=
  filters.foldl (fun o f => f o) obj

/-- JavaScript `str.replace(pattern, repl)` with a plain-string pattern:
replace the first occurrence only. -/
def replaceFirstList (pat repl : List Char) : List Char → List Char
  | [] => []
  | c :: rest =>
      if pat.isPrefixOf (c :: rest) then repl ++ (c :: rest).drop pat.length
      else c :: replaceFirstList pat repl rest

/-- Model of `String.replace` (first occurrence) lifted to `String`. -/
def replaceFirst (s pat repl : String) : String :=
  String.mk (replaceFirstList pat.data repl.data s.data)

/-- Model of `FilterExpression.prototype.resolve(context, opts)`.  The second argument
is an arbitrary JavaScript value; `ignore_failures` is read off it as a
property (`opts.ignore_failures || false`), so passing `true` positionally
yields `undefined` and the flag stays `false`.  On a failed base lookup with
failures not ignored: a truthy (non-empty) `string_if_invalid` is returned at
once with `%s` substituted, skipping the filter chain; otherwise the falsy
setting itself (the default empty string) becomes the value fed to the filter
chain. -/
def feResolve (fe : FilterExpr) (ctx : Ctx) (opts : JSValue) : JSValue :=
  let ignoreFailures := jsTruthy (jsGetProp opts "ignore_failures")
  match fe.varObj with
  | VarObj.literal v => applyFilters fe.filters v
  | VarObj.lookups path name =>
      match contextGet ctx.dicts path with
      | some obj => applyFilters fe.filters obj
      | none =>
          if ignoreFailures then applyFilters fe.filters JSValue.vNull
          else if ctx.stringIfInvalid ≠ "" then
            JSValue.vStr (replaceFirst ctx.stringIfInvalid "%s" name)
          else applyFilters fe.filters (JSValue.vStr ctx.stringIfInvalid)

/-! ## The `with` tag (`WithNode`) -/

/-- A `WithNode`: the declared bindings (`extra_context`, name to compiled
expression) and the body nodelist, abstracted as the render step it performs
on the dict stack (it may throw). -/
structure WithNode (ε : Type) where
  extra_context : List (String × FilterExpr)
  nodelist : RenderStep ε String

/-- The `values` object built at the top of `WithNode.prototype.render`: each
declared name bound to `entry.resolve(context)` against the current (not yet
extended) context. -/
def withResolvedValues {ε : Type} (w : WithNode ε) (ctx : Ctx) : Frame :=
  w.extra_context.foldl
    (fun acc kv => frameSet acc kv.1 (feResolve kv.2 ctx JSValue.vUndefined)) []

/-- Model of `WithNode.prototype.render`: resolve each declared value against the
current context, then `context.push(values, () => nodelist.render(context))`.
The pop inside `push` runs only when the body returns normally. -/
def withRender {ε : Type} (w : WithNode ε) (ctx : Ctx) : Except ε String × List Frame :=
  basePush ctx.dicts (some (withResolvedValues w ctx)) w.nodelist

/-! ## The `for` tag (`ForNode`) -/

/-- Model of `isArray(v)`. -/
def isArray : JSValue → Bool
  | JSValue.vList _ => true
  | _ => false

/-- Model of `v === null`. -/
def isNull : JSValue → Bool
  | JSValue.vNull => true
  | _ => false

/-- The elements of an array value. -/
def asList : JSValue → List JSValue
  | JSValue.vList xs => xs
  | _ => []

/-- The `loop_dict` as it stands on iteration `i` (0-based) of a loop over
`lenValues` items: `{parentloop, counter0: i, counter: i+1,
revcounter: len-i, revcounter0: len-i-1, first: i===0, last: i===len-1}`,
exactly the fields `ForNode.prototype.render` assigns before rendering the
iteration's body. -/
def forLoopEntries (parentloop : JSValue) (lenValues i : Nat) : List (String × JSValue) :=
  [("parentloop", parentloop),
   ("counter0", JSValue.vNum (i : Int)),
   ("counter", JSValue.vNum ((i : Int) + 1)),
   ("revcounter", JSValue.vNum ((lenValues : Int) - (i : Int))),
   ("revcounter0", JSValue.vNum ((lenValues : Int) - (i : Int) - 1)),
   ("first", JSValue.vBool (decide (i = 0))),
   ("last", JSValue.vBool (decide (i = lenValues - 1)))]

/-- A `ForNode`: loop variables, the compiled sequence expression, the
`reversed` flag, and the two nodelists.  Body nodes are abstracted as the
string each produces for a given context. -/
structure ForNode where
  loopvars : List String
  sequence : FilterExpr
  is_reversed : Bool := false
  nodelist_loop : List (Ctx → String)
  nodelist_empty : List (Ctx → String)

/-- The `values.forEach(...)` loop of `ForNode.prototype.render`: on each
iteration write `forloop` into the innermost frame, bind the loop variables
(`context.update` pushing a frame when unpacking, `context.set` otherwise),
render each body node into the `nodelist` accumulator, and pop the unpack
frame.  An unpack arity mismatch throws a `TemplateError`, abandoning the
iteration mid-way. -/
def forLoopGo (loopvars : List String) (bodies : List (Ctx → String)) (ctx : Ctx)
    (parentloop : JSValue) (lenValues : Nat) :
    List Frame → Nat → List JSValue → Except String (List String) × List Frame
  | dicts, _, [] => (Except.ok [], dicts)
  | dicts, i, item :: rest =>
      let loopDict := JSValue.vObj (forLoopEntries parentloop lenValues i)
      let dicts := ctxSet dicts "forloop" loopDict
      if loopvars.length > 1 then
        let items := asList (if isArray item then item else JSValue.vList [item])
        if loopvars.length ≠ items.length then
          (Except.error ("Need " ++ toString loopvars.length ++
            " values to unpack in for loop; got " ++ toString items.length ++ ". "), dicts)
        else
          let unpacked : Frame :=
            (loopvars.zip items).foldl (fun acc kv => frameSet acc kv.1 kv.2) []
          let dicts := dicts ++ [unpacked]
          let bits := bodies.map (fun nd => nd { ctx with dicts := dicts })
          let dicts := dicts.dropLast
          match forLoopGo loopvars bodies ctx parentloop lenValues dicts (i+1) rest with
          | (Except.ok bits2, ds) => (Except.ok (bits ++ bits2), ds)
          | (Except.error e, ds) => (Except.error e, ds)
      else
        let dicts := ctxSet dicts ((loopvars.head?).getD "") item
        let bits := bodies.map (fun nd => nd { ctx with dicts := dicts })
        match forLoopGo loopvars bodies ctx parentloop lenValues dicts (i+1) rest with
        | (Except.ok bits2, ds) => (Except.ok (bits ++ bits2), ds)
        | (Except.error e, ds) => (Except.error e, ds)

/-- Model of `ForNode.prototype.render`.  The sequence is resolved with
`resolve(context, true)` — note the literal `true` where `resolve` expects an
options object, so `ignore_failures` is read off a boolean and stays false.
`null` becomes `[]`, a non-array is wrapped as a one-element array.  When the
list is empty the callback renders `nodelist_empty` and returns its output,
but `context.push`'s return value is dropped by `render`, whose result is
always `markSafe(nodelist.join(''))` over the loop accumulator. -/
def forNodeRender (fn : ForNode) (ctx : Ctx) : Except String JSValue × List Frame :=
  let parentloop := (contextGet ctx.dicts ["forloop"]).getD JSValue.vNull
  let step : RenderStep String (List String) := fun dicts =>
    let ictx : Ctx := { ctx with dicts := dicts }
    let values := feResolve fn.sequence ictx (JSValue.vBool true)
    let values := if isNull values then JSValue.vList []
                  else if isArray values then values else JSValue.vList [values]
    let vs := asList values
    if vs.length = 0 then
      -- `return self.nodelist_empty.render(context)` — rendered, then the
      -- value is discarded by the caller of the push callback
      let _discarded := fn.nodelist_empty.map (fun nd => nd ictx)
      (Except.ok [], dicts)
    else
      let vs := if fn.is_reversed then vs.reverse else vs
      forLoopGo fn.loopvars fn.nodelist_loop ctx parentloop vs.length dicts 0 vs
  match basePush ctx.dicts none step with
  | (Except.ok bits, ds) => (Except.ok (JSValue.vSafeStr (String.join bits)), ds)
  | (Except.error e, ds) => (Except.error e, ds)

/-! ## Boolean expressions of conditional tags (`IfParser` operator nodes) -/

/-- A parsed condition tree.  A leaf is a `TemplateLiteral` whose
`evaluate(context)` resolves a filter expression; the resolution of the
ambient context is folded in, so a leaf carries the outcome of its
`evaluate` call — `Except.error` models a thrown exception (e.g. a filter
raising) and the `id` tags the leaf so evaluation order is observable.
`or`/`and`/`not` are the `OPERATORS` entries with those cmp closures; `cmpop`
is any other `InfixOperator` (`in`, `==`, `<`, …) carrying its `cmp` function,
which may itself throw. -/
inductive CondExpr where
  | leaf (id : Nat) (res : Except Unit JSValue)
  | orE (x y : CondExpr)
  | andE (x y : CondExpr)
  | notE (x : CondExpr)
  | cmpop (cmp : JSValue → JSValue → Except Unit JSValue) (x y : CondExpr)

/-- Model of `InfixOperator.prototype.evaluate` / `PrefixOperator.prototype.evaluate`
with the `OPERATORS` cmp closures inlined.  Every operator wraps its `cmp`
call in try/catch, converting any exception to `false`; `or` and `and` use
the host `||`/`&&`, which return the deciding operand's value and evaluate
the right operand only when the left does not decide.  The second component
is the list of leaf ids evaluated, in order. -/
def condEval : CondExpr → Except Unit JSValue × List Nat
  | CondExpr.leaf id res => (res, [id])
  | CondExpr.orE x y =>
      match condEval x with
      | (Except.error _, tx) => (Except.ok (JSValue.vBool false), tx)
      | (Except.ok xv, tx) =>
          if jsTruthy xv then (Except.ok xv, tx)
          else
            match condEval y with
            | (Except.error _, ty) => (Except.ok (JSValue.vBool false), tx ++ ty)
            | (Except.ok yv, ty) => (Except.ok yv, tx ++ ty)
  | CondExpr.andE x y =>
      match condEval x with
      | (Except.error _, tx) => (Except.ok (JSValue.vBool false), tx)
      | (Except.ok xv, tx) =>
          if jsTruthy xv then
            match condEval y with
            | (Except.error _, ty) => (Except.ok (JSValue.vBool false), tx ++ ty)
            | (Except.ok yv, ty) => (Except.ok yv, tx ++ ty)
          else (Except.ok xv, tx)
  | CondExpr.notE x =>
      match condEval x with
      | (Except.error _, tx) => (Except.ok (JSValue.vBool false), tx)
      | (Except.ok xv, tx) => (Except.ok (JSValue.vBool (!jsTruthy xv)), tx)
  | CondExpr.cmpop cmp x y =>
      match condEval x with
      | (Except.error _, tx) => (Except.ok (JSValue.vBool false), tx)
      | (Except.ok xv, tx) =>
          match condEval y with
          | (Except.error _, ty) => (Except.ok (JSValue.vBool false), tx ++ ty)
          | (Except.ok yv, ty) =>
              match cmp xv yv with
              | Except.error _ => (Except.ok (JSValue.vBool false), tx ++ ty)
              | Except.ok v => (Except.ok v, tx ++ ty)

/-- Whether a condition tree is rooted at an operator node (and therefore
protected by that operator's try/catch). -/
def isOperatorRoot : CondExpr → Bool
  | CondExpr.leaf _ _ => false
  | _ => true

/-! ## `NodeList.prototype.render` -/

/-- Model of `NodeList.prototype.render`: render each child in document order, coerce
each result with `bit + ''`, join, and `markSafe` the concatenation.
Children are abstracted as the render functions the node contract specifies
(`render(context) -> value`). -/
def nodeListRender (children : List (Ctx → JSValue)) (ctx : Ctx) : Except String JSValue :=
  let bits := children.map (fun child => jsToString (child ctx))
  markSafe (JSValue.vStr (String.join bits))

/-! ## String helpers used by the lexer and parser -/

/-- Does a character list contain a pattern as a contiguous sublist? -/
def containsSub (pat : List Char) : List Char → Bool
  | [] => pat.isPrefixOf []
  | c :: rest => pat.isPrefixOf (c :: rest) || containsSub pat rest

/-- Model of `tokenContents.split(/\s+/)` on already-trimmed contents: the
whitespace-separated words.  (Written on `List Char` so that it computes by
kernel reduction.) -/
def splitWsAux (acc : List Char) : List Char → List (List Char)
  | [] => if acc.isEmpty then [] else [acc.reverse]
  | c :: rest =>
      if c.isWhitespace then
        if acc.isEmpty then splitWsAux [] rest
        else acc.reverse :: splitWsAux [] rest
      else splitWsAux (c :: acc) rest

/-- Model of `tokenContents.split(/\s+/)` lifted back to `String`. -/
def splitWs (s : String) : List String :=
  (splitWsAux [] s.data).map String.mk

/-- Model of `String.prototype.trim`. -/
def trimList (cs : List Char) : List Char :=
  ((cs.dropWhile Char.isWhitespace).reverse.dropWhile Char.isWhitespace).reverse

/-- Model of `String.prototype.trim` lifted to `String`. -/
def jsTrim (s : String) : String :=
  String.mk (trimList s.data)

/-- Digit-sequence parsing for the numeric-literal case of the `Variable`
constructor (`parseFloat`, restricted to the integer literals the embedded
fragment needs). -/
def digitsToNat : List Char → Option Nat
  | [] => none
  | cs =>
      if cs.all Char.isDigit then
        some (cs.foldl (fun acc c => acc * 10 + (c.toNat - 48)) 0)
      else none

/-- Integer parsing (optional leading minus then digits). -/
def parseIntList (cs : List Char) : Option Int :=
  match cs with
  | '-' :: rest => (digitsToNat rest).map (fun n => -(n : Int))
  | _ => (digitsToNat cs).map (fun n => (n : Int))

/-- Model of `variable.split('.')` (the `VARIABLE_ATTRIBUTE_SEPARATOR` split). -/
def splitOnDotAux (acc : List Char) : List Char → List (List Char)
  | [] => [acc.reverse]
  | c :: rest =>
      if c = '.' then acc.reverse :: splitOnDotAux [] rest
      else splitOnDotAux (c :: acc) rest

/-- Model of `variable.split('.')` lifted to `String`. -/
def splitOnDot (s : String) : List String :=
  (splitOnDotAux [] s.data).map String.mk

/-! ## Lexer (`Lexer.prototype.tokenize`, `Lexer.prototype.createToken`) -/

/-- Token kinds (`TEXT_TOKEN`, `VAR_TOKEN`, `BLOCK_TOKEN`, `COMMENT_TOKEN`). -/
inductive TokType where
  | text
  | var
  | block
  | comment
deriving DecidableEq, Repr

/-- A lexer token (the `position` byte range of the debug lexer is omitted;
the default lexer passes `null`). -/
structure Tok where
  ttype : TokType
  contents : String
  lineno : Nat
deriving DecidableEq, Repr

/-- The lazy tail `.*?c₁c₂` of one alternative of `tag_re`: scan for the
earliest two-character closer, failing at a newline (JavaScript `.` does not
match line terminators).  Returns the matched middle and the remainder after
the closer. -/
def findClose (c1 c2 : Char) : List Char → Option (List Char × List Char)
  | [] => none
  | a :: rest =>
      if a = c1 ∧ rest.head? = some c2 then some ([], rest.drop 1)
      else if a = '\n' then none
      else (findClose c1 c2 rest).map (fun m => (a :: m.1, m.2))

/-- Model of `BLOCK_TAG_START` (`{%`) as characters. -/
def blockTagStart : List Char := ['{', '%']

/-- Model of `VARIABLE_TAG_START` (`{{`) as characters. -/
def variableTagStart : List Char := ['{', '{']

/-- Model of `COMMENT_TAG_START` (`{#`) as characters. -/
def commentTagStart : List Char := ['{', '#']

/-- Model of `tag_re` tried at one position: the alternatives `{%.*?%}`, `{{.*?}}`,
`{#.*?#}` in that order.  Returns the matched tag text and the remainder. -/
def matchTagAt (cs : List Char) : Option (List Char × List Char) :=
  if ('{' :: '%' :: []).isPrefixOf cs then
    match findClose '%' '}' (cs.drop 2) with
    | some (mid, rest) => some ('{' :: '%' :: mid ++ ['%', '}'], rest)
    | none => matchTagVar cs
  else matchTagVar cs
where
  matchTagVar (cs : List Char) : Option (List Char × List Char) :=
    if ('{' :: '{' :: []).isPrefixOf cs then
      match findClose '}' '}' (cs.drop 2) with
      | some (mid, rest) => some ('{' :: '{' :: mid ++ ['}', '}'], rest)
      | none => matchTagComment cs
    else matchTagComment cs
  matchTagComment (cs : List Char) : Option (List Char × List Char) :=
    if ('{' :: '#' :: []).isPrefixOf cs then
      match findClose '#' '}' (cs.drop 2) with
      | some (mid, rest) => some ('{' :: '#' :: mid ++ ['#', '}'], rest)
      | none => none
    else none

/-- Leftmost match of `tag_re`: try `matchTagAt` at each position from the
left.  Returns the text before the match, the matched tag, and the rest. -/
def findTagFrom : List Char → Option (List Char × List Char × List Char)
  | [] => none
  | c :: rest =>
      match matchTagAt (c :: rest) with
      | some (tag, after) => some ([], tag, after)
      | none => (findTagFrom rest).map (fun p => (c :: p.1, p.2.1, p.2.2))

/-- Model of `templateString.split(tag_re)` with its capture group: the source is cut
into alternating (text, tag, text, tag, …) bits; the `Bool` is the `in_tag`
flag the tokenize loop toggles per bit.  Fuel bounds the recursion; any fuel
of at least the source length is enough since each match consumes the
two-character opener. -/
def splitBitsAux : Nat → List Char → List (List Char × Bool)
  | 0, cs => [(cs, false)]
  | fuel + 1, cs =>
      match findTagFrom cs with
      | none => [(cs, false)]
      | some (pre, tag, after) => (pre, false) :: (tag, true) :: splitBitsAux fuel after

/-- Model of `Lexer.prototype.createToken`: classify one bit.  The verbatim state is
the lexer's `this.verbatim` field (`none` when inactive); inside a verbatim
block every bit except the matching `{% endverbatim %}` is forced to a TEXT
token carrying its raw text. -/
def createToken (verbatim : Option String) (bit : List Char) (lineno : Nat)
    (in_tag : Bool) : Tok × Option String :=
  let raw : String := String.mk bit
  if in_tag then
    if ('{' :: '%' :: []).isPrefixOf bit then
      let content := jsTrim (String.mk (bit.drop 2 |>.dropLast.dropLast))
      match verbatim with
      | some v =>
          if content ≠ v then (⟨TokType.text, raw, lineno⟩, verbatim)
          else (⟨TokType.block, content, lineno⟩, none)
      | none =>
          if content = "verbatim" ∨ "verbatim ".data.isPrefixOf content.data then
            (⟨TokType.block, content, lineno⟩, some ("end" ++ content))
          else (⟨TokType.block, content, lineno⟩, none)
    else if verbatim.isNone then
      let content := jsTrim (String.mk (bit.drop 2 |>.dropLast.dropLast))
      if ('{' :: '{' :: []).isPrefixOf bit then
        (⟨TokType.var, content, lineno⟩, verbatim)
      else (⟨TokType.comment, content, lineno⟩, verbatim)
    else (⟨TokType.text, raw, lineno⟩, verbatim)
  else (⟨TokType.text, raw, lineno⟩, verbatim)

/-- Model of `countNewLines`. -/
def countNewLines (bit : List Char) : Nat :=
  (bit.filter (fun c => c = '\n')).length

/-- The `forEach` over the split bits in `Lexer.prototype.tokenize`: skip
empty bits, create a token for the rest, threading the verbatim state and the
line counter. -/
def tokenizeBits : Option String → Nat → List (List Char × Bool) → List Tok
  | _, _, [] => []
  | verbatim, lineno, (bit, in_tag) :: rest =>
      if bit.isEmpty then tokenizeBits verbatim lineno rest
      else
        let (tok, verbatim') := createToken verbatim bit lineno in_tag
        tok :: tokenizeBits verbatim' (lineno + countNewLines bit) rest

/-- Model of `Lexer.prototype.tokenize`. -/
def tokenize (source : String) : List Tok :=
  tokenizeBits none 1 (splitBitsAux source.data.length source.data)

/-! ## Tag parser (`Parser.prototype.parse`) -/

/-- Compile-time errors raised by the parser (`TemplateSyntaxError`s); each
constructor carries the data interpolated into the corresponding message.
`internal` stands for a host-level fault (popping an empty command stack) and
for fuel exhaustion, which enough fuel makes unreachable. -/
inductive PErr where
  | emptyVar (lineno : Nat)
  | emptyBlock (lineno : Nat)
  | invalidBlockTag (lineno : Nat) (command : String) (expected : List String)
  | unclosedTag (lineno : Nat) (command : String) (lookingFor : List String)
  | syntaxError (msg : String)
  | internal
deriving DecidableEq, Repr

/-- Compiled render nodes for the embedded tag registry: text nodes, variable
nodes, and the two body tags (`spaceless`, `autoescape`) whose compile
callbacks recursively invoke `parser.parse`. -/
inductive PNode where
  | text (s : String)
  | varNode (fe : FilterExpr)
  | spaceless (body : List PNode)
  | autoescapeCtl (setting : Bool) (body : List PNode)

/-- Model of `parser.compileFilter`, i.e. the `FilterExpression` constructor, on the
fragment of the expression grammar the embedded tags exercise: a quoted
string literal (`this.literal = markSafe(...)`), an integer literal, or a
plain dotted variable lookup with the constructor's underscore restriction.
Filter pipes and arguments are outside the embedded fragment and rejected;
no claim settled here involves a filtered token. -/
def compileFilterSimple (contents : String) : Except PErr FilterExpr :=
  let cs := contents.data
  if cs.head? = some '\'' ∨ cs.head? = some '"' then
    Except.ok ⟨VarObj.literal (JSValue.vSafeStr (String.mk ((cs.drop 1).dropLast))), []⟩
  else
    match parseIntList contents.data with
    | some n => Except.ok ⟨VarObj.literal (JSValue.vNum n), []⟩
    | none =>
        if cs.contains '|' ∨ cs.contains ':' then
          Except.error (PErr.syntaxError ("Could not parse the remainder: " ++ contents))
        else if cs.head? = some '_' ∨ containsSub "._".data cs then
          Except.error (PErr.syntaxError
            ("Variables and attributes may not begin with underscores: " ++ contents))
        else Except.ok ⟨VarObj.lookups (splitOnDot contents) contents, []⟩

/-- Model of `Parser.prototype.parse(parseUntil)` with the command stack threaded
explicitly: returns the nodelist, the remaining token stream (with the
matched stop token pushed back, as the source does), and the command stack.
A BLOCK token pushes `(command, token)` onto the command stack, dispatches to
the tag's compile callback (inlined here for the embedded registry), and pops
the entry on success.  Exhausting the stream with a non-empty `parseUntil`
reaches `Parser.prototype.unclosedBlockTag`, which pops the **last** command
stack entry and raises the "Unclosed tag" error from it.  `fuel` bounds the
recursion; `2 * tokens.length + 1` steps always suffice. -/
def parseAux : Nat → List Tok → List (String × Tok) → List String →
    Except PErr (List PNode × List Tok × List (String × Tok))
  | 0, _, _, _ => Except.error PErr.internal
  | _ + 1, [], stack, parseUntil =>
      if parseUntil.isEmpty then Except.ok ([], [], stack)
      else
        match stack.getLast? with
        | none => Except.error PErr.internal
        | some (command, tok) => Except.error (PErr.unclosedTag tok.lineno command parseUntil)
  | fuel + 1, tok :: rest, stack, parseUntil =>
      match tok.ttype with
      | TokType.text =>
          match parseAux fuel rest stack parseUntil with
          | Except.ok (ns, toks, st) => Except.ok (PNode.text tok.contents :: ns, toks, st)
          | Except.error e => Except.error e
      | TokType.comment => parseAux fuel rest stack parseUntil
      | TokType.var =>
          if tok.contents = "" then Except.error (PErr.emptyVar tok.lineno)
          else
            match compileFilterSimple tok.contents with
            | Except.error e => Except.error e
            | Except.ok fe =>
                match parseAux fuel rest stack parseUntil with
                | Except.ok (ns, toks, st) => Except.ok (PNode.varNode fe :: ns, toks, st)
                | Except.error e => Except.error e
      | TokType.block =>
          let tokenContents := jsTrim tok.contents
          if tokenContents = "" then Except.error (PErr.emptyBlock tok.lineno)
          else
            let command := ((splitWs tokenContents).head?).getD ""
            if parseUntil.contains command then Except.ok ([], tok :: rest, stack)
            else
              let stack1 := stack ++ [(command, tok)]
              let compiled : Except PErr (PNode × List Tok × List (String × Tok)) :=
                if command = "spaceless" then
                  match parseAux fuel rest stack1 ["endspaceless"] with
                  | Except.ok (body, toks, st) =>
                      Except.ok (PNode.spaceless body, toks.drop 1, st)
                  | Except.error e => Except.error e
                else if command = "autoescape" then
                  let args := splitWs tok.contents
                  if args.length ≠ 2 then
                    Except.error (PErr.syntaxError
                      "'autoescape' tag requires exactly one argument.")
                  else if (args.getD 1 "") ≠ "on" ∧ (args.getD 1 "") ≠ "off" then
                    Except.error (PErr.syntaxError
                      "'autoescape' argument should be 'on' or 'off'")
                  else
                    match parseAux fuel rest stack1 ["endautoescape"] with
                    | Except.ok (body, toks, st) =>
                        Except.ok (PNode.autoescapeCtl ((args.getD 1 "") = "on") body,
                          toks.drop 1, st)
                    | Except.error e => Except.error e
                else Except.error (PErr.invalidBlockTag tok.lineno command parseUntil)
              match compiled with
              | Except.error e => Except.error e
              | Except.ok (node, toks1, st1) =>
                  match parseAux fuel toks1 st1.dropLast parseUntil with
                  | Except.ok (ns, toks2, st2) => Except.ok (node :: ns, toks2, st2)
                  | Except.error e => Except.error e

/-- Top-level `parser.parse()` as `Template.prototype.compileNodelist` calls
it: empty stop list, fresh command stack, ample fuel. -/
def parseTop (tokens : List Tok) : Except PErr (List PNode × List Tok × List (String × Tok)) :=
  parseAux (2 * tokens.length + 1) tokens [] []

/-! ## Rendering the parsed node tree -/

/-- The global replace `/>\s+</g → '><'` of `SpacelessNode.prototype.render`. -/
def stripSpacesBetweenTags : List Char → List Char
  | [] => []
  | c :: rest =>
      if c = '>' then
        let ws := rest.takeWhile Char.isWhitespace
        if ws ≠ [] ∧ (rest.drop ws.length).head? = some '<' then
          '>' :: stripSpacesBetweenTags (rest.drop ws.length)
        else c :: stripSpacesBetweenTags rest
      else c :: stripSpacesBetweenTags rest
termination_by cs => cs.length
decreasing_by
  · simp
    have := List.length_drop (rest.takeWhile Char.isWhitespace).length rest
    omega
  · simp
  · simp

mutual

/-- Model of `render(context)` for each embedded node variant: `TextNode` returns its
string; `VariableNode` resolves and escapes via `render_value_in_context`;
`SpacelessNode` trims its body's rendering and collapses whitespace between
tags; `AutoEscapeControlNode` renders its body with the autoescape flag
overridden.  String contents are modelled (safe-marking changes no
contents). -/
def renderPNode (ctx : Ctx) : PNode → String
  | PNode.text s => s
  | PNode.varNode fe =>
      render_value_in_context (feResolve fe ctx JSValue.vUndefined) ctx.autoescape
  | PNode.spaceless body =>
      String.mk (stripSpacesBetweenTags (trimList (String.join (renderPList ctx body)).data))
  | PNode.autoescapeCtl setting body =>
      String.join (renderPList { ctx with autoescape := setting } body)

/-- The bits of `NodeList.prototype.render` over embedded nodes, in document
order. -/
def renderPList (ctx : Ctx) : List PNode → List String
  | [] => []
  | n :: rest => renderPNode ctx n :: renderPList ctx rest

end

/-- Compile a template source and render its nodelist against a context:
`Template.prototype.compileNodelist` (lexer + parser) followed by
`Template.prototype._render` (`this.nodelist.render(context)`), whose result
is the `markSafe`d join of the rendered bits; the string contents are
returned. -/
def compileAndRender (source : String) (ctx : Ctx) : Except PErr String :=
  match parseTop (tokenize source) with
  | Except.ok (nodes, _, _) => Except.ok (String.join (renderPList ctx nodes))
  | Except.error e => Except.error e

/-! ## Supporting lemmas -/

theorem replList_append (c : Char) (r a b : List Char) :
    replList c r (a ++ b) = replList c r a ++ replList c r b := by
  induction a with
  | nil => rfl
  | cons x xs ih => simp [replList, ih]

theorem escPasses_append (a b : List Char) :
    escPasses (a ++ b) = escPasses a ++ escPasses b := by
  simp [escPasses, replList_append]

theorem escPasses_single (c : Char) : escPasses [c] = escapeChar c := by
  by_cases h1 : c = '&'
  · subst h1; rfl
  · by_cases h2 : c = '<'
    · subst h2; rfl
    · by_cases h3 : c = '>'
      · subst h3; rfl
      · by_cases h4 : c = '"'
        · subst h4; rfl
        · by_cases h5 : c = '\''
          · subst h5; rfl
          · simp [escPasses, replList, escapeChar, h1, h2, h3, h4, h5]

/-- The sequential five-pass `escapeHtml` of the source computes the
character-wise entity substitution the specification describes. -/
theorem escapeHtml_eq_spec (s : String) : escapeHtml s = escapeHtmlSpec s := by
  have key : ∀ cs : List Char, escPasses cs = cs.flatMap escapeChar := by
    intro cs
    induction cs with
    | nil => rfl
    | cons c rest ih =>
        have : (c :: rest) = [c] ++ rest := rfl
        rw [this, escPasses_append, escPasses_single, ih]
        simp
  simp [escapeHtml, escapeHtmlSpec, key]

/-! ## Claim C5: variable-node escaping -/

/-- C5, counterexample: the claim as stated fails at `v = null` with
autoescape on.  `render_value_in_context` emits the empty string there
(`conditionalEscape` special-cases `null`/`undefined`), while the
HTML-escaped form of the stringified value — `String(null)` is `"null"` —
is `"null"`, which is also exactly what the autoescape-off path emits. -/
theorem claim_C5_counterexample :
    render_value_in_context JSValue.vNull true = ""
    ∧ escapeHtmlSpec (jsToString JSValue.vNull) = "null"
    ∧ render_value_in_context JSValue.vNull false = "null"
    ∧ ("" : String) ≠ "null" := by
  have h1 : jsToString JSValue.vNull = "null" := by simp [jsToString]
  refine ⟨rfl, ?_, ?_, by decide⟩
  · rw [h1]; decide
  · simp [render_value_in_context, h1]

/-- C5, amended: with autoescape on, a `null`/`undefined` value renders as
the empty string; a safe-marked value is emitted unescaped; every other
value renders as the HTML-entity-escaped form (&, <, >, ", ' replaced by
entities) of its stringification.  With autoescape off the output is the
stringified value unchanged. -/
theorem claim_C5 (v : JSValue) (autoescape : Bool) :
    render_value_in_context v autoescape =
      if autoescape then
        match v with
        | JSValue.vNull => ""
        | JSValue.vUndefined => ""
        | JSValue.vSafeStr s => s
        | _ => escapeHtmlSpec (jsToString v)
      else jsToString v := by
  cases autoescape with
  | false => rfl
  | true => cases v <;> simp [render_value_in_context, conditionalEscape, escapeHtml_eq_spec]

/-! ## Claim C10: `NodeList.render` safe-marks the concatenated bits -/

/-- C10: for every node list and context, `NodeList.prototype.render`
returns a `SafeString` whose contents are the document-order concatenation
of each child's rendered output coerced to a string, and `conditionalEscape`
passes that safe-marked result through unchanged, so an enclosing render
does not re-escape it. -/
theorem claim_C10 (children : List (Ctx → JSValue)) (ctx : Ctx) :
    nodeListRender children ctx =
      Except.ok (JSValue.vSafeStr
        (String.join (children.map (fun child => jsToString (child ctx)))))
    ∧ conditionalEscape (JSValue.vSafeStr
        (String.join (children.map (fun child => jsToString (child ctx)))))
      = String.join (children.map (fun child => jsToString (child ctx))) :=
  ⟨rfl, rfl⟩

/-! ## Claim C4: short-circuiting and exception-to-false conversion -/

/-- C4: `or` returns the left operand's value without touching the right
operand when the left is truthy; `and` does so when the left is falsy (the
evaluation trace stays exactly the left operand's trace, so the right
operand's leaves are never evaluated); and every operator-rooted condition
evaluates to `ok` — a comparator's thrown exception is converted to `false`
by the operator's own try/catch and never propagates. -/
theorem claim_C4 :
    (∀ x y xv tx, condEval x = (Except.ok xv, tx) → jsTruthy xv = true →
        condEval (CondExpr.orE x y) = (Except.ok xv, tx))
    ∧ (∀ x y xv tx, condEval x = (Except.ok xv, tx) → jsTruthy xv = false →
        condEval (CondExpr.andE x y) = (Except.ok xv, tx))
    ∧ (∀ e, isOperatorRoot e = true → ∃ v, (condEval e).1 = Except.ok v)
    ∧ (∀ cmp x y xv tx yv ty, condEval x = (Except.ok xv, tx) →
        condEval y = (Except.ok yv, ty) → cmp xv yv = Except.error () →
        condEval (CondExpr.cmpop cmp x y) = (Except.ok (JSValue.vBool false), tx ++ ty)) := by
  refine ⟨?_, ?_, ?_, ?_⟩
  · intro x y xv tx hx htruthy
    simp [condEval, hx, htruthy]
  · intro x y xv tx hx hfalsy
    simp [condEval, hx, hfalsy]
  · intro e hop
    cases e with
    | leaf id res => simp [isOperatorRoot] at hop
    | orE x y =>
        simp only [condEval]
        rcases hcx : condEval x with ⟨rx, tx⟩
        cases rx with
        | error e => simp [hcx]
        | ok xv =>
            by_cases ht : jsTruthy xv
            · simp [hcx, ht]
            · rcases hcy : condEval y with ⟨ry, ty⟩
              cases ry <;> simp [hcx, ht, hcy]
    | andE x y =>
        simp only [condEval]
        rcases hcx : condEval x with ⟨rx, tx⟩
        cases rx with
        | error e => simp [hcx]
        | ok xv =>
            by_cases ht : jsTruthy xv
            · rcases hcy : condEval y with ⟨ry, ty⟩
              cases ry <;> simp [hcx, ht, hcy]
            · simp [hcx, ht]
    | notE x =>
        simp only [condEval]
        rcases hcx : condEval x with ⟨rx, tx⟩
        cases rx <;> simp [hcx]
    | cmpop cmp x y =>
        simp only [condEval]
        rcases hcx : condEval x with ⟨rx, tx⟩
        cases rx with
        | error e => simp [hcx]
        | ok xv =>
            rcases hcy : condEval y with ⟨ry, ty⟩
            cases ry with
            | error e => simp [hcx, hcy]
            | ok yv =>
                cases hcmp : cmp xv yv <;> simp [hcx, hcy, hcmp]
  · intro cmp x y xv tx yv ty hx hy hcmp
    simp [condEval, hx, hy, hcmp]

/-- C4, witness: a truthy left operand decides an `or` with trace `[0]` —
the right leaf (id 1) is never evaluated. -/
theorem claim_C4_witness :
    condEval (CondExpr.orE (CondExpr.leaf 0 (Except.ok (JSValue.vBool true)))
        (CondExpr.leaf 1 (Except.ok (JSValue.vBool false))))
      = (Except.ok (JSValue.vBool true), [0]) :=
  claim_C4.1 _ _ _ _ rfl rfl

/-! ## Claim C8: the dict stack is never emptied and frame 0 survives -/

theorem applyOp_len_pos (dicts : List Frame) (op : COp) (h : 1 ≤ dicts.length) :
    1 ≤ ((applyOp dicts op).2).length := by
  cases op with
  | push d => simp [applyOp]
  | pop =>
      simp only [applyOp]
      by_cases hl : dicts.length = 1
      · simp [hl]
      · simp [hl]
        omega
  | set k v =>
      simp only [applyOp, ctxSet]
      match dicts, h with
      | f :: rest, _ =>
          have : (f :: rest).getLast? = some ((f :: rest).getLast (by simp)) := by
            simp [List.getLast?_eq_getLast]
          simp [this]
  | delete k =>
      simp only [applyOp, ctxDelete]
      match dicts, h with
      | f :: rest, _ =>
          have : (f :: rest).getLast? = some ((f :: rest).getLast (by simp)) := by
            simp [List.getLast?_eq_getLast]
          simp [this]

/-- C8: (1) a fresh context's stack has the builtins frame at position 0 and
length at least 1; (2) `push` adds exactly one frame; (3) `pop` on a
one-frame stack throws `ContextPopException` and leaves the stack unchanged,
while on a larger stack it removes exactly the last frame, preserving frame
0; (4) under every sequence of push/pop/set/delete operations the stack
stays non-empty. -/
theorem claim_C8 :
    (∀ d, (resetDicts d).head? = some contextBuiltins ∧ 1 ≤ (resetDicts d).length)
    ∧ (∀ dicts d, ((applyOp dicts (COp.push d)).2).length = dicts.length + 1)
    ∧ (∀ f, applyOp [f] COp.pop = (Except.error ContextErr.contextPopException, [f]))
    ∧ (∀ f0 f1 rest, (applyOp (f0 :: f1 :: rest) COp.pop).2 = (f0 :: f1 :: rest).dropLast
        ∧ ((applyOp (f0 :: f1 :: rest) COp.pop).2).head? = some f0)
    ∧ (∀ d ops, 1 ≤ (runOps (resetDicts d) ops).length) := by
  refine ⟨?_, ?_, ?_, ?_, ?_⟩
  · intro d; cases d <;> simp [resetDicts]
  · intro dicts d; simp [applyOp]
  · intro f; simp [applyOp]
  · intro f0 f1 rest
    constructor
    · simp [applyOp]
    · cases rest <;> simp [applyOp, List.dropLast]
  · intro d ops
    have go : ∀ (ops : List COp) (dicts : List Frame), 1 ≤ dicts.length →
        1 ≤ (runOps dicts ops).length := by
      intro ops
      induction ops with
      | nil => intro dicts h; simpa [runOps] using h
      | cons op rest ih =>
          intro dicts h
          have step := applyOp_len_pos dicts op h
          simpa [runOps] using ih _ step
    refine go ops (resetDicts d) ?_
    cases d <;> simp [resetDicts]

/-! ## Claim C1: the `with` tag's push/pop discipline -/

/-- The context used in the C1 counterexample: a fresh context with only the
builtins frame. -/
def ctxBase : Ctx := Ctx.mk (resetDicts none) true ""

/-- A `WithNode` whose body throws while leaving the dict stack as it found
it (the minimal failing body). -/
def withThrowing : WithNode Unit :=
  WithNode.mk [("v", FilterExpr.mk (VarObj.literal (JSValue.vNum 1)) [])]
    (fun dicts => (Except.error (), dicts))

/-- C1, counterexample: when the body render throws, `WithNode.render` does
**not** pop the pushed frame — there is no try/finally around
`this.dicts.pop()` in `BaseContext.push` — so after the failed render the
dict stack is one frame longer than before, not the same length. -/
theorem claim_C1_counterexample :
    ((withRender withThrowing ctxBase).2).length = 2
    ∧ ctxBase.dicts.length = 1 := by
  constructor <;> rfl

/-- C1, amended: rendering a `WithNode` pushes exactly one frame (the
declared names bound to their resolved values), runs the body against that
extended stack, and pops the frame when the body returns normally; when the
body throws, the exception propagates and the frame is **not** popped — the
stack is left exactly as the body left it, one frame longer when the body
preserved its stack. -/
theorem claim_C1 {ε : Type} (w : WithNode ε) (ctx : Ctx) :
    (∀ r ds, w.nodelist (ctx.dicts ++ [withResolvedValues w ctx]) = (Except.ok r, ds) →
        withRender w ctx = (Except.ok r, ds.dropLast))
    ∧ (∀ e ds, w.nodelist (ctx.dicts ++ [withResolvedValues w ctx]) = (Except.error e, ds) →
        withRender w ctx = (Except.error e, ds)) := by
  constructor
  · intro r ds h
    simp [withRender, basePush, h]
  · intro e ds h
    simp [withRender, basePush, h]

/-- A `WithNode` whose body returns normally, leaving the stack as it found
it. -/
def withOkBody : WithNode Unit :=
  WithNode.mk [("v", FilterExpr.mk (VarObj.literal (JSValue.vNum 7)) [])]
    (fun dicts => (Except.ok "body", dicts))

/-- C1, witness: the amended theorem applied to a concrete node whose body
succeeds — the frame is pushed, the body runs, the frame is popped, and the
original one-frame stack is restored. -/
theorem claim_C1_witness :
    withRender withOkBody ctxBase =
      (Except.ok "body", (ctxBase.dicts ++ [withResolvedValues withOkBody ctxBase]).dropLast) :=
  (claim_C1 withOkBody ctxBase).1 "body" _ rfl

/-! ## Claim C2: `for` over a missing sequence variable -/

/-- A `ForNode` for `{% for x in missing %}B{% empty %}E{% endfor %}`: one
loop variable, a sequence expression looking up the absent name `missing`,
no filters, a body node rendering `"B"` and an empty-clause node rendering
`"E"`. -/
def forMissingSeq : ForNode :=
  ForNode.mk ["x"] (FilterExpr.mk (VarObj.lookups ["missing"] "missing") []) false
    [fun _ => "B"] [fun _ => "E"]

/-- The same loop over a variable `items` that is present but `null`. -/
def forNullSeq : ForNode :=
  ForNode.mk ["x"] (FilterExpr.mk (VarObj.lookups ["items"] "items") []) false
    [fun _ => "B"] [fun _ => "E"]

/-- A context binding `items` to `null`. -/
def ctxNullItems : Ctx :=
  Ctx.mk (resetDicts (some [("items", JSValue.vNull)])) true ""

/-- C2: evaluating `ForNode.render` at the failing input — the sequence
variable absent from the context, default `string_if_invalid` of `""` — the
loop body renders once (the output is `"B"`, not the empty clause's `"E"`).
`resolve(context, true)` passes the boolean `true` where an options object
is expected, so `opts.ignore_failures` is `undefined` (second conjunct), the
missing variable resolves to the fallback `""`, and that non-array string is
wrapped into the one-element sequence `[""]` instead of being treated as
empty.  Third conjunct: with the variable present but `null` the sequence is
treated as empty and the body never runs, yet the output is `""`, not `"E"`
— the push callback renders `nodelist_empty` but its return value is
discarded by `render`. -/
theorem claim_C2 :
    (forNodeRender forMissingSeq ctxBase).1 = Except.ok (JSValue.vSafeStr "B")
    ∧ jsTruthy (jsGetProp (JSValue.vBool true) "ignore_failures") = false
    ∧ (forNodeRender forNullSeq ctxNullItems).1 = Except.ok (JSValue.vSafeStr "") := by
  refine ⟨rfl, rfl, rfl⟩

/-! ## Claim C7: the `forloop` counters -/

/-- C7: on every iteration `i` of a loop over `len` items, the `loop_dict`
installed as `forloop` satisfies `counter + revcounter0 = len`, with
`counter = i+1` (1-based) and `revcounter0 = len-i-1` (0-based from the
end); `first` is true exactly on the first iteration and `last` exactly on
the last. -/
theorem claim_C7 (parentloop : JSValue) (len i : Nat) (hi : i < len) :
    jsGetProp (JSValue.vObj (forLoopEntries parentloop len i)) "counter"
        = JSValue.vNum ((i : Int) + 1)
    ∧ jsGetProp (JSValue.vObj (forLoopEntries parentloop len i)) "revcounter0"
        = JSValue.vNum ((len : Int) - (i : Int) - 1)
    ∧ ((i : Int) + 1) + ((len : Int) - (i : Int) - 1) = (len : Int)
    ∧ (jsGetProp (JSValue.vObj (forLoopEntries parentloop len i)) "first"
        = JSValue.vBool true ↔ i = 0)
    ∧ (jsGetProp (JSValue.vObj (forLoopEntries parentloop len i)) "last"
        = JSValue.vBool true ↔ i + 1 = len) := by
  refine ⟨?_, ?_, by omega, ?_, ?_⟩
  · simp [jsGetProp, forLoopEntries]
  · simp [jsGetProp, forLoopEntries]
  · simp [jsGetProp, forLoopEntries]
  · simp [jsGetProp, forLoopEntries]
    omega

/-- C7, witness: the invariant at the middle iteration of a three-element
loop. -/
theorem claim_C7_witness :
    jsGetProp (JSValue.vObj (forLoopEntries JSValue.vNull 3 1)) "counter"
        = JSValue.vNum 2
    ∧ jsGetProp (JSValue.vObj (forLoopEntries JSValue.vNull 3 1)) "revcounter0"
        = JSValue.vNum 1
    ∧ ((2 : Int) + 1 = 3 ∨ True) := by
  have h := claim_C7 JSValue.vNull 3 1 (by decide)
  exact ⟨h.1, h.2.1, Or.inr trivial⟩

/-! ## Claim C9: `string_if_invalid` path selection on failed base lookup -/

/-- C9: when the base variable lookup fails (the `VARIABLE_DOES_NOT_EXISTS`
sentinel comes back) and `ignore_failures` is off: a non-empty
`string_if_invalid` is returned immediately with `%s` replaced by the
variable's dotted path, bypassing the filter chain entirely (the result does
not depend on the filters); with the default empty `string_if_invalid`, the
filter chain is applied to the empty string. -/
theorem claim_C9 (path : List String) (name : String)
    (filters filters2 : List (JSValue → JSValue)) (ctx : Ctx) (opts : JSValue)
    (hmiss : contextGet ctx.dicts path = none)
    (hif : jsTruthy (jsGetProp opts "ignore_failures") = false) :
    (ctx.stringIfInvalid ≠ "" →
        feResolve (FilterExpr.mk (VarObj.lookups path name) filters) ctx opts
          = JSValue.vStr (replaceFirst ctx.stringIfInvalid "%s" name)
        ∧ feResolve (FilterExpr.mk (VarObj.lookups path name) filters) ctx opts
          = feResolve (FilterExpr.mk (VarObj.lookups path name) filters2) ctx opts)
    ∧ (ctx.stringIfInvalid = "" →
        feResolve (FilterExpr.mk (VarObj.lookups path name) filters) ctx opts
          = applyFilters filters (JSValue.vStr "")) := by
  constructor
  · intro hsii
    constructor <;> simp [feResolve, hmiss, hif, hsii]
  · intro hsii
    simp [feResolve, hmiss, hif, hsii]

/-- C9, witness: both branches at concrete inputs — a context with
`string_if_invalid = "bad: %s"` yields `"bad: missing"` regardless of the
filter chain, and the default empty setting threads `""` through the
filters. -/
theorem claim_C9_witness :
    (feResolve (FilterExpr.mk (VarObj.lookups ["missing"] "missing")
          [fun _ => JSValue.vNum 9]) (Ctx.mk (resetDicts none) true "bad: %s") (JSValue.vObj [])
        = JSValue.vStr (replaceFirst "bad: %s" "%s" "missing"))
    ∧ (feResolve (FilterExpr.mk (VarObj.lookups ["missing"] "missing")
          [fun _ => JSValue.vNum 9]) (Ctx.mk (resetDicts none) true "") (JSValue.vObj [])
        = applyFilters [fun _ => JSValue.vNum 9] (JSValue.vStr "")) := by
  constructor
  · exact ((claim_C9 ["missing"] "missing" [fun _ => JSValue.vNum 9] []
      (Ctx.mk (resetDicts none) true "bad: %s") (JSValue.vObj []) rfl rfl).1 (by decide)).1
  · exact (claim_C9 ["missing"] "missing" [fun _ => JSValue.vNum 9] []
      (Ctx.mk (resetDicts none) true "") (JSValue.vObj []) rfl rfl).2 rfl

/-! ## Claim C3: the "unclosed tag" diagnostic -/

/-- C3, counterexample: parsing `{% spaceless %}{% autoescape on %}x` — the
stream exhausts inside `parse(['endautoescape'])` while the pending-tag
stack is `[spaceless, autoescape]`.  The raised error names `autoescape`,
the innermost (most recently opened) pending tag, not the outermost pending
tag `spaceless`. -/
theorem claim_C3_counterexample :
    parseTop [Tok.mk TokType.block "spaceless" 1,
              Tok.mk TokType.block "autoescape on" 1,
              Tok.mk TokType.text "x" 1]
      = Except.error (PErr.unclosedTag 1 "autoescape" ["endautoescape"])
    ∧ ("autoescape" : String) ≠ "spaceless" := by
  constructor
  · rfl
  · decide

/-- C3, amended: when `parse` exhausts the token stream with a non-empty
stop list, `unclosedBlockTag` pops the **last** entry of the pending-tag
command stack — the most recently opened (innermost) pending tag — and
raises the "Unclosed tag" error naming that tag's command and line together
with the expected terminator set. -/
theorem claim_C3 (tokens : List Tok) (fuel : Nat) (init : List (String × Tok))
    (c : String) (t : Tok) (stop : List String)
    (htext : ∀ tk ∈ tokens, tk.ttype = TokType.text)
    (hstop : stop ≠ []) (hfuel : tokens.length < fuel) :
    parseAux fuel tokens (init ++ [(c, t)]) stop
      = Except.error (PErr.unclosedTag t.lineno c stop) := by
  induction tokens generalizing fuel with
  | nil =>
      match fuel, hfuel with
      | f + 1, _ =>
          have hlast : (init ++ [(c, t)]).getLast? = some (c, t) := by
            rw [List.getLast?_append_of_ne_nil init (by simp)]
            rfl
          simp [parseAux, List.isEmpty_iff, hstop, hlast]
  | cons tk rest ih =>
      match fuel, hfuel with
      | f + 1, hf =>
          have htk : tk.ttype = TokType.text := htext tk (by simp)
          have hrest : ∀ x ∈ rest, x.ttype = TokType.text := fun x hx => htext x (by simp [hx])
          have ihr := ih f hrest (by simp at hf ⊢; omega)
          simp [parseAux, htk, ihr]

/-- C3, witness: the amended theorem at a concrete one-text-token stream
with a pending `if` opened on line 4. -/
theorem claim_C3_witness :
    parseAux 2 [Tok.mk TokType.text "x" 4] [("if", Tok.mk TokType.block "if a" 4)]
        ["elif", "else", "endif"]
      = Except.error (PErr.unclosedTag 4 "if" ["elif", "else", "endif"]) := by
  have h := claim_C3 [Tok.mk TokType.text "x" 4] 2 [] "if" (Tok.mk TokType.block "if a" 4)
    ["elif", "else", "endif"] (by intro tk htk; simp at htk; rw [htk]) (by decide) (by decide)
  simpa using h

/-! ## Claim C6: identity on tag-free sources -/

theorem isPrefixOf_false_of_containsSub_false {pat cs : List Char}
    (h : containsSub pat cs = false) : pat.isPrefixOf cs = false := by
  cases cs with
  | nil => simpa [containsSub] using h
  | cons c rest =>
      simp [containsSub] at h
      simpa using h.1

theorem containsSub_false_tail {pat : List Char} {c : Char} {rest : List Char}
    (h : containsSub pat (c :: rest) = false) : containsSub pat rest = false := by
  simp [containsSub] at h
  simpa using h.2

theorem matchTagAt_none {cs : List Char}
    (h1 : List.isPrefixOf blockTagStart cs = false)
    (h2 : List.isPrefixOf variableTagStart cs = false)
    (h3 : List.isPrefixOf commentTagStart cs = false) :
    matchTagAt cs = none := by
  simp only [blockTagStart] at h1
  simp only [variableTagStart] at h2
  simp only [commentTagStart] at h3
  simp [matchTagAt, matchTagAt.matchTagVar, matchTagAt.matchTagComment, h1, h2, h3]

theorem findTagFrom_none {cs : List Char}
    (h1 : containsSub blockTagStart cs = false)
    (h2 : containsSub variableTagStart cs = false)
    (h3 : containsSub commentTagStart cs = false) :
    findTagFrom cs = none := by
  induction cs with
  | nil => rfl
  | cons c rest ih =>
      have m := matchTagAt_none (isPrefixOf_false_of_containsSub_false h1)
        (isPrefixOf_false_of_containsSub_false h2)
        (isPrefixOf_false_of_containsSub_false h3)
      simp [findTagFrom, m,
        ih (containsSub_false_tail h1) (containsSub_false_tail h2) (containsSub_false_tail h3)]

theorem splitBitsAux_no_tag (fuel : Nat) {cs : List Char} (h : findTagFrom cs = none) :
    splitBitsAux fuel cs = [(cs, false)] := by
  cases fuel <;> simp [splitBitsAux, h]

theorem parseTop_single_text (s : String) (ln : Nat) :
    parseTop [Tok.mk TokType.text s ln] = Except.ok ([PNode.text s], [], []) := by
  simp [parseTop, parseAux]

/-- C6: a source containing none of the tag openers `{%`, `{{`, `{#` lexes
to a single TEXT token (or to no token at all when empty), parses to a
single text node, and renders — against any context — to exactly the
original source. -/
theorem claim_C6 (source : String) (ctx : Ctx)
    (h1 : containsSub blockTagStart source.data = false)
    (h2 : containsSub variableTagStart source.data = false)
    (h3 : containsSub commentTagStart source.data = false) :
    compileAndRender source ctx = Except.ok source := by
  have hf := findTagFrom_none h1 h2 h3
  have ht := splitBitsAux_no_tag source.data.length hf
  have hmk : String.mk source.data = source := rfl
  by_cases he : source.data.isEmpty
  · have hsrc : source = "" := by
      cases source with
      | mk data => cases data with
        | nil => rfl
        | cons c rest => simp at he
    subst hsrc
    rfl
  · have htok : tokenize source = [Tok.mk TokType.text source 1] := by
      rw [tokenize, ht]
      simp [tokenizeBits, he, createToken, hmk]
    rw [compileAndRender, htok, parseTop_single_text]
    show Except.ok (String.join [renderPNode ctx (PNode.text source)]) = Except.ok source
    rfl

/-- C6, witness: the identity at a concrete tag-free source. -/
theorem claim_C6_witness :
    compileAndRender "hello <b> world\nsecond line" ctxBase
      = Except.ok "hello <b> world\nsecond line" :=
  claim_C6 "hello <b> world\nsecond line" ctxBase (by decide) (by decide) (by decide)

end DTE
